import Mathlib

/-!
Verification development for the LC480 txt curve viewer core:
the two file-format parsers (`lc480_parser.py`, `lcpro_parser.py`) and the
baseline-correction / Ct / Call quantification engine (`baseline.py`).

Numbers are modelled exactly: Python floats become `ℚ` (the claims under
scrutiny are about exact arithmetic identities and control flow, not about
rounding), Python ints become `Int`/`Nat`.  Python dicts become association
lists in insertion order; `dict.get` becomes `List.lookup`.

The Python standard-library primitives that the parsers call — `float(s)`,
`int(s)` and `re.search` with the metadata pattern — are not part of this
repository, so the parser embeddings are parametrised over them:
`pf : String → Option ℚ` (float conversion), `pint : String → Option Int`
(int conversion), `mm : String → Option (String × String)` (the regex
`Experiment\s*-\s*(.+?)\s*\(Run on LCS480\s+(.+?)\)`, returning the two
capture groups).  `none` models the corresponding Python exception.
Concrete instances fixed to agree with Python on the literals used in the
witnesses are provided further below.
-/

namespace LC480

/-! ## Quantification engine data model (`baseline.py`) -/

/-- `BaselineSettings` from `baseline.py` (user-configurable parameters).
`start_cycle`/`end_cycle` are 1-based cycle numbers; the settings dialog
constrains them to `1 ≤ start_cycle < end_cycle ≤ num_cycles`, so they are
carried as `Nat`. -/
structure BaselineSettings where
  start_cycle : Nat
  end_cycle : Nat
  ct_threshold : ℚ
  call_threshold : ℚ

/-- The loop body of `_calc_ct` (`baseline.py` lines 106-114) for indices
`i ≥ 1`: `prev` is `divided[i-1]`, `i` is the current index, and the
remaining suffix of `divided` is scanned front to back. -/
def calcCtGo (t : ℚ) (prev : ℚ) (i : Nat) : List ℚ → Option ℚ
  | [] => none
  | y :: ys =>
      if t ≤ y then some ((i : ℚ) + (t - prev) / (y - prev))
      else calcCtGo t y (i + 1) ys

/-- `_calc_ct(divided, threshold)` from `baseline.py`: find the first index
`i` with `divided[i] >= threshold`; return `1.0` if `i = 0`, the linear
interpolation `i + (threshold - divided[i-1]) / (divided[i] - divided[i-1])`
if `i > 0`, and `None` if there is no such index. -/
def calcCt (divided : List ℚ) (threshold : ℚ) : Option ℚ :=
  match divided with
  | [] => none
  | y :: ys => if threshold ≤ y then some 1 else calcCtGo threshold y 1 ys

lemma calcCtGo_all_below (ys : List ℚ) :
    ∀ (t prev : ℚ) (i0 : Nat), (∀ k, k < ys.length → ys.getD k 0 < t) →
      calcCtGo t prev i0 ys = none := by
  induction ys with
  | nil => intro t prev i0 _; rfl
  | cons y ys ih =>
    intro t prev i0 h
    have hy : y < t := by simpa using h 0 (by simp)
    rw [calcCtGo, if_neg (not_le.mpr hy)]
    exact ih t y (i0 + 1) (fun k hk => by simpa using h (k + 1) (by simpa using hk))

lemma calcCtGo_crossing (ys : List ℚ) :
    ∀ (t prev : ℚ) (i0 j : Nat), j < ys.length →
      t ≤ ys.getD j 0 → (∀ k, k < j → ys.getD k 0 < t) →
      calcCtGo t prev i0 ys =
        some (((i0 + j : Nat) : ℚ) +
          (t - (if j = 0 then prev else ys.getD (j - 1) 0)) /
          (ys.getD j 0 - (if j = 0 then prev else ys.getD (j - 1) 0))) := by
  induction ys with
  | nil => intro t prev i0 j hj; simp at hj
  | cons y ys ih =>
    intro t prev i0 j hj hcr hlt
    cases j with
    | zero =>
      simp only [List.getD_cons_zero] at hcr
      rw [calcCtGo, if_pos hcr]
      simp
    | succ j' =>
      have hy : y < t := by simpa using hlt 0 (Nat.succ_pos _)
      rw [calcCtGo, if_neg (not_le.mpr hy)]
      rw [ih t y (i0 + 1) j' (by simpa using hj) (by simpa using hcr)
        (fun k hk => by simpa using hlt (k + 1) (by omega))]
      cases j' with
      | zero => simp
      | succ j'' =>
        simp only [List.getD_cons_succ, Nat.succ_ne_zero, if_false,
          Nat.add_sub_cancel]
        congr 2
        push_cast
        ring

/-- C1. Ct determination: for every normalized curve and `ct_threshold`,
`_calc_ct` scans from index 0 and finds the first index `i` with
`normalized[i] >= ct_threshold`; if `i = 0` the Ct is exactly `1.0`; if
`i > 0` the Ct is `i + (ct_threshold - normalized[i-1]) /
(normalized[i] - normalized[i-1])`; if no index satisfies the condition the
Ct is absent.  For the normalized curve `[0.5, 0.8, 1.2, 2.0, 3.0]` and
`ct_threshold = 1.5` the Ct equals `3.375`. -/
theorem ct_determination :
    (∀ (l : List ℚ) (t : ℚ) (i : Nat), i < l.length → t ≤ l.getD i 0 →
        (∀ j, j < i → l.getD j 0 < t) →
        calcCt l t = some (if i = 0 then 1 else
          (i : ℚ) + (t - l.getD (i - 1) 0) / (l.getD i 0 - l.getD (i - 1) 0))) ∧
    (∀ (l : List ℚ) (t : ℚ), (∀ j, j < l.length → l.getD j 0 < t) →
        calcCt l t = none) ∧
    calcCt [1/2, 4/5, 6/5, 2, 3] (3/2) = some (27/8) := by
  refine ⟨?_, ?_, ?_⟩
  · intro l t i hi hcr hlt
    cases l with
    | nil => simp at hi
    | cons y ys =>
      cases i with
      | zero =>
        simp only [List.getD_cons_zero] at hcr
        rw [calcCt, if_pos hcr]
        simp
      | succ i' =>
        have hy : y < t := by simpa using hlt 0 (Nat.succ_pos _)
        rw [calcCt, if_neg (not_le.mpr hy)]
        rw [calcCtGo_crossing ys t y 1 i' (by simpa using hi) (by simpa using hcr)
          (fun k hk => by simpa using hlt (k + 1) (by omega))]
        simp only [Nat.succ_ne_zero, if_false, List.getD_cons_succ,
          Nat.add_sub_cancel]
        cases i' with
        | zero => simp
        | succ i'' =>
          simp only [List.getD_cons_succ, Nat.add_sub_cancel]
          congr 2
          push_cast
          ring
  · intro l t h
    cases l with
    | nil => rfl
    | cons y ys =>
      have hy : y < t := by simpa using h 0 (by simp)
      rw [calcCt, if_neg (not_le.mpr hy)]
      exact calcCtGo_all_below ys t y 1
        (fun k hk => by simpa using h (k + 1) (by simpa using hk))
  · rw [calcCt]
    norm_num [calcCtGo]

/-- Witness for C1: instantiating the first-crossing characterisation at the
spec's example curve, crossing index 3, reproduces the interpolated value. -/
theorem ct_determination_witness :
    calcCt [1/2, 4/5, 6/5, 2, 3] (3/2) = some (if (3 : Nat) = 0 then 1 else
      ((3 : Nat) : ℚ) +
        ((3/2 : ℚ) - ([1/2, 4/5, 6/5, 2, 3] : List ℚ).getD (3 - 1) 0) /
        (([1/2, 4/5, 6/5, 2, 3] : List ℚ).getD 3 0 -
          ([1/2, 4/5, 6/5, 2, 3] : List ℚ).getD (3 - 1) 0)) :=
  ct_determination.1 [1/2, 4/5, 6/5, 2, 3] (3/2) 3 (by norm_num)
    (by norm_num) (by intro j hj; interval_cases j <;> norm_num)

/-! ## Baseline fit and the per-channel computation (`compute_baseline`) -/

/-- Python slice `l[s:e]` for `0 ≤ s ≤ e` (the only case the engine uses:
`start_idx = start_cycle - 1`, `end_idx = end_cycle`, both non-negative for
validated settings). -/
def pySlice (l : List ℚ) (s e : Nat) : List ℚ := (l.take e).drop s

/-- `np.polyfit(xs, ys, 1)` in exact arithmetic: the ordinary least-squares
line `(slope, intercept)` for the points `zip xs ys`, in the closed form
`slope = (n·Σxy − Σx·Σy) / (n·Σx² − (Σx)²)`, `intercept = (Σy − slope·Σx)/n`.
For `n ≥ 2` distinct abscissae (the validated-settings case) this is the
unique least-squares solution that `polyfit` computes. -/
def olsFit (xs ys : List ℚ) : ℚ × ℚ :=
  let n : ℚ := xs.length
  let sx := xs.sum
  let sy := ys.sum
  let sxx := (xs.map (fun x => x * x)).sum
  let sxy := (List.zipWith (fun x y => x * y) xs ys).sum
  let slope := (n * sxy - sx * sy) / (n * sxx - sx * sx)
  (slope, (sy - slope * sx) / n)

/-- `np.arange(1, num_cycles + 1)` as rationals: the cycle-number array. -/
def natCycles (n : Nat) : List ℚ :=
  (List.range n).map (fun (i : Nat) => ((i + 1 : Nat) : ℚ))

/-- `natCycles n` has `n` entries. -/
lemma natCycles_length (n : Nat) : (natCycles n).length = n := by
  rw [natCycles, List.length_map, List.length_range]

/-- The per-(well, channel) slice of `BaselineResults` (`baseline.py`):
the four parallel dicts `subtracted`/`divided`/`ct`/`call` all share the same
keys and are filled together, so they are modelled as one record per key. -/
structure ChannelResult where
  subtracted : List ℚ
  divided : Option (List ℚ)
  ct : Option ℚ
  call : String
deriving DecidableEq

/-- Lines 70-74 of `baseline.py`: fit the linear baseline to the window
`[start_cycle - 1, end_cycle)` and evaluate the fitted line over all cycles
(`baseline_curve = slope * cycles + intercept`). -/
def baselineCurve (cycles : List ℚ) (settings : BaselineSettings)
    (f : List ℚ) : List ℚ :=
  let startIdx := settings.start_cycle - 1
  let endIdx := settings.end_cycle
  let fit := olsFit (pySlice cycles startIdx endIdx) (pySlice f startIdx endIdx)
  cycles.map (fun x => fit.1 * x + fit.2)

/-- The body of the per-channel loop of `compute_baseline` (`baseline.py`
lines 61-96); `fluor` is `data.fluorescence.get(well, {}).get(channel)`.
`divided[-1]` presumes a non-empty curve in Python; it is rendered with
`getLastD` (every reachable call site has `num_cycles ≥ 1` curves). -/
def computeOne (cycles : List ℚ) (settings : BaselineSettings)
    (fluor : Option (List ℚ)) : ChannelResult :=
  match fluor with
  | none =>
      { subtracted := cycles.map (fun _ => (0 : ℚ)), divided := none,
        ct := none, call := "N/A" }
  | some f =>
      let baseline_curve := baselineCurve cycles settings f
      let subtracted := List.zipWith (fun a b => a - b) f baseline_curve
      if baseline_curve.any (fun b => b == 0) then
        { subtracted := subtracted, divided := none, ct := none, call := "N/A" }
      else
        let divided := List.zipWith (fun a b => a / b) f baseline_curve
        { subtracted := subtracted, divided := some divided,
          ct := calcCt divided settings.ct_threshold,
          call := if settings.call_threshold ≤ divided.getLastD 0
                  then "Positive" else "Negative" }

/-- `LC480Data` from `lc480_parser.py` (the canonical dataset produced by
both parsers).  Dicts are association lists in insertion order; numpy arrays
are lists of rationals. -/
structure LC480Data where
  experiment_name : String
  software_version : String
  channels : List String
  wells : List String
  sample_names : List (String × String)
  num_cycles : Nat
  fluorescence : List (String × List (String × List ℚ))
  cycles : List ℚ
deriving DecidableEq

/-- `data.fluorescence.get(well, {}).get(channel)`. -/
def flLookup (data : LC480Data) (well channel : String) : Option (List ℚ) :=
  match data.fluorescence.lookup well with
  | none => none
  | some m => m.lookup channel

/-- `compute_baseline(data, settings)` (`baseline.py` lines 44-98): one
`ChannelResult` per well per channel, keyed exactly like the Python nested
dicts.  `if not data or not data.wells` degenerates to the `wells = []` test,
since a dataclass instance is always truthy and `data` is never `None` here. -/
def compute_baseline (data : LC480Data) (settings : BaselineSettings) :
    List (String × List (String × ChannelResult)) :=
  if data.wells = [] then []
  else
    data.wells.map (fun w =>
      (w, data.channels.map (fun ch =>
        (ch, computeOne data.cycles settings (flLookup data w ch)))))

/-- Result lookup `results.<field>[well][channel]`. -/
def lookupResult (r : List (String × List (String × ChannelResult)))
    (well channel : String) : Option ChannelResult :=
  match r.lookup well with
  | none => none
  | some m => m.lookup channel

lemma lookup_map_self {α : Type} (g : String → α) :
    ∀ (ws : List String) (x : String), x ∈ ws →
      (ws.map (fun w => (w, g w))).lookup x = some (g x) := by
  intro ws
  induction ws with
  | nil => intro x hx; simp at hx
  | cons w ws ih =>
    intro x hx
    by_cases h : x = w
    · subst h; simp [List.lookup]
    · have hx' : x ∈ ws := by
        rcases List.mem_cons.mp hx with h1 | h1
        · exact absurd h1 h
        · exact h1
      have hb : (x == w) = false := beq_eq_false_iff_ne.mpr h
      simpa [List.lookup, hb] using ih x hx'

lemma lookupResult_compute (data : LC480Data) (settings : BaselineSettings)
    (w ch : String) (hw : w ∈ data.wells) (hch : ch ∈ data.channels) :
    lookupResult (compute_baseline data settings) w ch =
      some (computeOne data.cycles settings (flLookup data w ch)) := by
  have hne : data.wells ≠ [] := by
    intro h0; rw [h0] at hw; simp at hw
  unfold lookupResult
  rw [compute_baseline, if_neg hne,
    lookup_map_self (fun w => data.channels.map (fun ch =>
      (ch, computeOne data.cycles settings (flLookup data w ch)))) _ _ hw]
  exact lookup_map_self (fun ch => computeOne data.cycles settings
    (flLookup data w ch)) _ _ hch

/-! ## Claims C8, C7, C2 about the engine -/

/-- C8. Missing-curve result: for every (well, channel) pair with no entry in
the fluorescence lookup, the engine produces an all-zero subtracted curve of
length `num_cycles`, an absent normalized curve, an absent Ct and an `N/A`
call, without raising. -/
theorem missing_curve_result (data : LC480Data) (settings : BaselineSettings)
    (w ch : String) (hw : w ∈ data.wells) (hch : ch ∈ data.channels)
    (hmiss : flLookup data w ch = none)
    (hc : data.cycles.length = data.num_cycles) :
    lookupResult (compute_baseline data settings) w ch =
      some { subtracted := List.replicate data.num_cycles 0,
             divided := none, ct := none, call := "N/A" } := by
  rw [lookupResult_compute data settings w ch hw hch, hmiss]
  simp [computeOne, List.map_const', hc]

/-- Dataset for the C8 witness: one well, one channel, but no curve recorded
for the (well, channel) pair. -/
def dataC8 : LC480Data :=
  { experiment_name := "", software_version := "", channels := ["FAM"],
    wells := ["A1"], sample_names := [], num_cycles := 3,
    fluorescence := [("A1", [])], cycles := natCycles 3 }

/-- Witness for C8 at a concrete dataset with a missing (well, channel). -/
theorem missing_curve_result_witness :
    lookupResult (compute_baseline dataC8 ⟨3, 15, 3/2, 2⟩) "A1" "FAM" =
      some { subtracted := List.replicate 3 0, divided := none, ct := none,
             call := "N/A" } :=
  missing_curve_result dataC8 ⟨3, 15, 3/2, 2⟩ "A1" "FAM"
    (by simp [dataC8]) (by simp [dataC8]) rfl (natCycles_length 3)

/-- C7. Zero-baseline edge case: for every (well, channel) with a present
curve, if the fitted baseline curve equals 0 by exact equality at any cycle,
the normalized curve and Ct are absent, the call is `N/A`, the engine does
not raise, and the subtracted curve is still populated — regardless of the
raw fluorescence values. -/
theorem zero_baseline_case (data : LC480Data) (settings : BaselineSettings)
    (w ch : String) (hw : w ∈ data.wells) (hch : ch ∈ data.channels)
    (f : List ℚ) (hf : flLookup data w ch = some f)
    (h0 : (0 : ℚ) ∈ baselineCurve data.cycles settings f) :
    lookupResult (compute_baseline data settings) w ch =
      some { subtracted := List.zipWith (fun a b => a - b) f
               (baselineCurve data.cycles settings f),
             divided := none, ct := none, call := "N/A" } := by
  rw [lookupResult_compute data settings w ch hw hch, hf]
  have hany : (baselineCurve data.cycles settings f).any (fun b => b == 0)
      = true := List.any_eq_true.mpr ⟨0, h0, by simp⟩
  simp [computeOne, hany]

/-- Dataset for the C7 witness: the baseline window is cycles 1-2 and the
fitted line `x - 2` hits zero exactly at cycle 2. -/
def dataC7 : LC480Data :=
  { experiment_name := "", software_version := "", channels := ["FAM"],
    wells := ["A1"], sample_names := [], num_cycles := 3,
    fluorescence := [("A1", [("FAM", [-1, 0, 9])])], cycles := natCycles 3 }

/-- Witness for C7: with fluorescence `[-1, 0, 9]` and baseline window 1-2
the fitted line evaluates to `[-1, 0, 1]`, which touches zero at cycle 2. -/
theorem zero_baseline_case_witness :
    lookupResult (compute_baseline dataC7 ⟨1, 2, 3/2, 2⟩) "A1" "FAM" =
      some { subtracted := [0, 0, 8], divided := none, ct := none,
             call := "N/A" } := by
  have hbc : baselineCurve dataC7.cycles ⟨1, 2, 3/2, 2⟩ [-1, 0, 9]
      = [-1, 0, 1] := by
    norm_num [baselineCurve, olsFit, pySlice, natCycles, dataC7, List.range_succ]
  have h := zero_baseline_case dataC7 ⟨1, 2, 3/2, 2⟩ "A1" "FAM"
    (by simp [dataC7]) (by simp [dataC7]) [-1, 0, 9] rfl
    (by rw [hbc]; norm_num)
  rw [h, hbc]
  norm_num

lemma zipWith_mul_replicate (xs : List ℚ) (k : ℚ) :
    List.zipWith (fun x y => x * y) xs (List.replicate xs.length k)
      = xs.map (fun x => x * k) := by
  induction xs with
  | nil => simp
  | cons x xs ih => simpa [List.replicate_succ] using ih

lemma sum_map_mul_const (xs : List ℚ) (k : ℚ) :
    (xs.map (fun x => x * k)).sum = xs.sum * k := by
  induction xs with
  | nil => simp
  | cons x xs ih => simp [ih]; ring

/-- Fitting a constant curve of value `k`: slope 0, intercept `k`, exactly. -/
lemma olsFit_const (xs : List ℚ) (k : ℚ) (hne : xs.length ≠ 0) :
    olsFit xs (List.replicate xs.length k) = (0, k) := by
  have hn : (xs.length : ℚ) ≠ 0 := Nat.cast_ne_zero.mpr hne
  simp only [olsFit, List.length_replicate, zipWith_mul_replicate,
    sum_map_mul_const, List.sum_replicate, nsmul_eq_mul]
  have hs : ((xs.length : ℚ) * (xs.sum * k) - xs.sum * ((xs.length : ℚ) * k))
      = 0 := by ring
  rw [hs, zero_div]
  simp only [Prod.mk.injEq, true_and, zero_mul, sub_zero]
  rw [mul_comm ((xs.length : ℚ)) k, mul_div_assoc, div_self hn, mul_one]

lemma pySlice_replicate (n s e : Nat) (k : ℚ) :
    pySlice (List.replicate n k) s e = List.replicate (min e n - s) k := by
  simp [pySlice, List.take_replicate, List.drop_replicate]

lemma length_pySlice (l : List ℚ) (s e : Nat) :
    (pySlice l s e).length = min e l.length - s := by
  simp [pySlice]

/-- C2. Baseline fit and invariance: for every present curve and valid
settings the engine fits an OLS line over the half-open index window
`[start_cycle - 1, end_cycle)`, evaluates it over all cycles, and subtracts
it pointwise from the fluorescence; consequently a constant fluorescence `k`
yields slope 0, intercept `k` and an identically zero subtracted curve, in
exact arithmetic. -/
theorem baseline_fit_invariance (n : Nat) (settings : BaselineSettings)
    (h1 : 1 ≤ settings.start_cycle) (h2 : settings.start_cycle < settings.end_cycle)
    (h3 : settings.end_cycle ≤ n) :
    (∀ f : List ℚ,
        (computeOne (natCycles n) settings (some f)).subtracted =
          List.zipWith (fun a b => a - b) f (baselineCurve (natCycles n) settings f)) ∧
    (∀ k : ℚ,
        olsFit (pySlice (natCycles n) (settings.start_cycle - 1) settings.end_cycle)
            (pySlice (List.replicate n k) (settings.start_cycle - 1) settings.end_cycle)
          = (0, k) ∧
        (computeOne (natCycles n) settings (some (List.replicate n k))).subtracted
          = List.replicate n 0) := by
  have hlen : (pySlice (natCycles n) (settings.start_cycle - 1)
      settings.end_cycle).length = settings.end_cycle - (settings.start_cycle - 1) := by
    rw [length_pySlice, natCycles_length, min_eq_left h3]
  have hm : settings.end_cycle - (settings.start_cycle - 1) ≠ 0 := by omega
  have hfit : ∀ k : ℚ,
      olsFit (pySlice (natCycles n) (settings.start_cycle - 1) settings.end_cycle)
        (pySlice (List.replicate n k) (settings.start_cycle - 1) settings.end_cycle)
        = (0, k) := by
    intro k
    rw [pySlice_replicate, min_eq_left h3]
    rw [show settings.end_cycle - (settings.start_cycle - 1)
        = (pySlice (natCycles n) (settings.start_cycle - 1) settings.end_cycle).length
      from hlen.symm]
    exact olsFit_const _ k (by rw [hlen]; exact hm)
  have hsub : ∀ f : List ℚ,
      (computeOne (natCycles n) settings (some f)).subtracted =
        List.zipWith (fun a b => a - b) f (baselineCurve (natCycles n) settings f) := by
    intro f
    simp only [computeOne]
    split <;> rfl
  refine ⟨hsub, fun k => ⟨hfit k, ?_⟩⟩
  rw [hsub (List.replicate n k)]
  have hbc : baselineCurve (natCycles n) settings (List.replicate n k)
      = List.replicate n k := by
    simp only [baselineCurve, hfit k]
    have : (fun x => (0 : ℚ) * x + k) = fun _ => k := by funext x; ring
    rw [this, List.map_const', natCycles_length]
  rw [hbc, List.zipWith_replicate]
  simp

/-- Witness for C2 at `n = 5` cycles, window 2-4, constant value 7. -/
theorem baseline_fit_invariance_witness :
    (computeOne (natCycles 5) ⟨2, 4, 3/2, 2⟩ (some (List.replicate 5 7))).subtracted
      = List.replicate 5 0 :=
  ((baseline_fit_invariance 5 ⟨2, 4, 3/2, 2⟩ (by norm_num) (by norm_num)
    (by norm_num)).2 7).2

/-! ## String primitives

The embedding uses its own list-of-characters implementations of the Python
string operations the parsers rely on (`str.strip`, `str.split('\t')`,
`str.startswith`), so that every definition evaluates by kernel reduction. -/

/-- Python's `str.strip()` whitespace set. -/
def pyWS (c : Char) : Bool :=
  c == ' ' || c == '\t' || c == '\n' || c == '\r' || c == '\x0b' || c == '\x0c'

/-- `str.strip()` on the character list. -/
def trimChars (cs : List Char) : List Char :=
  ((cs.dropWhile pyWS).reverse.dropWhile pyWS).reverse

/-- `line.strip()`. -/
def pyStrip (s : String) : String := ⟨trimChars s.data⟩

/-- `s.split(sep)` on the character list, single-character separator. -/
def splitChar (sep : Char) (cs : List Char) : List (List Char) :=
  cs.foldr (fun c acc =>
    match acc with
    | [] => [[c]]
    | a :: as => if c == sep then [] :: a :: as else (c :: a) :: as) [[]]

/-- `s.split('\t')` on the character list. -/
def splitTabChars (cs : List Char) : List (List Char) :=
  splitChar '\t' cs

/-- `line.split('\t')`. -/
def pySplitTab (s : String) : List String :=
  (splitTabChars s.data).map (fun cs => ⟨cs⟩)

/-- `line.strip().startswith('SamplePos')`, the header test. -/
def startsWithSamplePos (s : String) : Bool :=
  s.data.take 9 == "SamplePos".data

/-! ## Text format parser (`lc480_parser.py`) -/

/-- `well_sort_key(well)` from `lc480_parser.py`:
`(int(well[1:]), ord(well[0].upper()) - ord('A'))`.  The Python exceptions —
`IndexError` on an empty string, `ValueError` from `int` — are modelled as
`none`. -/
def well_sort_key (pint : String → Option Int) (w : String) :
    Option (Int × Int) :=
  match w.data with
  | [] => none
  | c :: _ =>
      match pint (⟨w.data.drop 1⟩ : String) with
      | none => none
      | some col => some (col, (c.toUpper.toNat : Int) - 65)

/-- Strict lexicographic comparison of sort keys, i.e. Python tuple `<`. -/
def keyLtB (a b : Int × Int) : Bool :=
  decide (a.1 < b.1) || (a.1 == b.1 && decide (a.2 < b.2))

/-- Insert into a sorted list, before the first entry not strictly below
`a` — the insertion step of a stable insertion sort. -/
def insertKeyed {α : Type} (lt : α → α → Bool) (a : α) : List α → List α
  | [] => [a]
  | b :: bs => if lt b a then b :: insertKeyed lt a bs else a :: b :: bs

/-- Stable insertion sort.  Python's `sorted` is a stable mergesort; any two
stable sorts with the same comparison agree, so this models `sorted`. -/
def isortBy {α : Type} (lt : α → α → Bool) : List α → List α
  | [] => []
  | a :: as => insertKeyed lt a (isortBy lt as)

/-- `sorted(ws, key=well_sort_key)`: compute each key (propagating the
Python exception as `none`), then stable-sort by key. -/
def sortWells (pint : String → Option Int) (ws : List String) :
    Option (List String) :=
  match ws.mapM (fun w => (well_sort_key pint w).map (fun k => (k, w))) with
  | none => none
  | some keyed =>
      some ((isortBy (fun a b => keyLtB a.1 b.1) keyed).map Prod.snd)

/-- Parser state while scanning data rows: `raw` and `data.sample_names`. -/
structure RawState where
  raw : List (String × List (String × List ℚ))
  sample_names : List (String × String)

/-- `try: float(parts[7+j]) except (IndexError, ValueError): 0.0` —
the silent-zero recovery for one reading. -/
def readValue (pf : String → Option ℚ) (parts : List String) (j : Nat) : ℚ :=
  match parts[7 + j]? with
  | none => 0
  | some s =>
      match pf s with
      | none => 0
      | some v => v

/-- `{ch: [] for ch in channels}` (duplicate names collapse to one key). -/
def emptyWellMap (channels : List String) : List (String × List ℚ) :=
  channels.foldl
    (fun m ch => if (m.lookup ch).isSome then m else m ++ [(ch, [])]) []

/-- `raw[well][ch].append(v)` (no-op on an absent key, which cannot occur at
the call sites since the per-well dict is seeded from `channels`). -/
def appendVal (m : List (String × List ℚ)) (ch : String) (v : ℚ) :
    List (String × List ℚ) :=
  m.map (fun p => if p.1 = ch then (p.1, p.2 ++ [v]) else p)

/-- `for j, ch in enumerate(channels): raw[well][ch].append(...)`. -/
def appendRow (pf : String → Option ℚ) (parts : List String) :
    Nat → List String → List (String × List ℚ) → List (String × List ℚ)
  | _, [], m => m
  | j, ch :: chs, m =>
      appendRow pf parts (j + 1) chs (appendVal m ch (readValue pf parts j))

/-- The body of the data-row loop (`lc480_parser.py` lines 73-93). -/
def processLine (pf : String → Option ℚ) (channels : List String)
    (st : RawState) (line : String) : RawState :=
  let l := pyStrip line
  if l = "" then st
  else
    let parts := pySplitTab l
    if parts.length < 8 then st
    else
      let well := pyStrip (parts.getD 0 "")
      let name := pyStrip (parts.getD 1 "")
      let st1 :=
        if (st.raw.lookup well).isSome then st
        else { raw := st.raw ++ [(well, emptyWellMap channels)],
               sample_names := st.sample_names ++ [(well, name)] }
      { st1 with raw := st1.raw.map (fun p =>
          if p.1 = well then (p.1, appendRow pf parts 0 channels p.2) else p) }

/-- First line whose trimmed content starts with `SamplePos`. -/
def findHeaderIdx (lines : List String) : Option Nat :=
  lines.findIdx? (fun l => startsWithSamplePos (pyStrip l))

/-- Channel names: header tokens from column 7 on, trimmed, empties
dropped. -/
def headerChannels (lines : List String) (hIdx : Nat) : List String :=
  (((pySplitTab (pyStrip (lines.getD hIdx ""))).drop 7).map pyStrip).filter
    (fun h => h ≠ "")

/-- The metadata scan over the pre-header lines (`lc480_parser.py` lines
57-64): each match overwrites both fields; no match leaves them as is. -/
def metaOf (mm : String → Option (String × String)) (lines : List String)
    (hIdx : Nat) : String × String :=
  (lines.take hIdx).foldl (fun acc l =>
    match mm (pyStrip l) with
    | some nv => nv
    | none => acc) ("", "")

/-- The data-row scan: all lines after the header through `processLine`. -/
def rowState (pf : String → Option ℚ) (channels : List String)
    (lines : List String) (hIdx : Nat) : RawState :=
  (lines.drop (hIdx + 1)).foldl (processLine pf channels) ⟨[], []⟩

/-- The Python exceptions that abort `parse_lc480_file` / `parse_lcpro_file`:
the explicit missing-header `ValueError`, the `ValueError`/`IndexError`
escaping from `well_sort_key` inside `sorted`, the `IndexError` from
`data.channels[0]`, and the XML parser's conversion errors
(`TypeError`/`ValueError`/`AttributeError` on element text). -/
inductive ParseError where
  | missingHeader
  | wellKeyError
  | noChannels
  | xmlValueError
deriving DecidableEq

deriving instance DecidableEq for Except

/-- `parse_lc480_file` (`lc480_parser.py` lines 29-110), starting from the
decoded text split into lines.  (The byte-level decode step cannot fail:
UTF-8 decoding falls back to latin-1, which accepts every byte sequence.) -/
def parse_lc480_file (pf : String → Option ℚ) (pint : String → Option Int)
    (mm : String → Option (String × String)) (lines : List String) :
    Except ParseError LC480Data :=
  match findHeaderIdx lines with
  | none => .error .missingHeader
  | some hIdx =>
      let meta := metaOf mm lines hIdx
      let channels := headerChannels lines hIdx
      let st := rowState pf channels lines hIdx
      match sortWells pint (st.raw.map Prod.fst) with
      | none => .error .wellKeyError
      | some sortedWs =>
          let fluorescence := sortedWs.map (fun w =>
            (w, channels.map (fun ch =>
              (ch, (((st.raw.lookup w).getD []).lookup ch).getD []))))
          match sortedWs, channels with
          | [], _ =>
              .ok { experiment_name := meta.1, software_version := meta.2,
                    channels := channels, wells := [],
                    sample_names := st.sample_names, num_cycles := 0,
                    fluorescence := fluorescence, cycles := [] }
          | _ :: _, [] => .error .noChannels
          | w0 :: rest, ch0 :: _ =>
              let n := ((((fluorescence.lookup w0).getD []).lookup ch0).getD
                []).length
              .ok { experiment_name := meta.1, software_version := meta.2,
                    channels := channels, wells := w0 :: rest,
                    sample_names := st.sample_names, num_cycles := n,
                    fluorescence := fluorescence, cycles := natCycles n }

/-! ## Concrete instances of the Python stdlib parameters

The parsers are parametrised over `float`, `int` and the metadata regex.
The witnesses and counterexamples below instantiate them with concrete
functions that agree with Python on every literal they are applied to. -/

/-- Non-empty all-digit character list to its decimal value. -/
def decDigitsNat (cs : List Char) : Option Nat :=
  if cs.isEmpty then none
  else if cs.all (fun c => c.isDigit) then
    some (cs.foldl (fun n c => 10 * n + (c.toNat - 48)) 0)
  else none

/-- Stand-in for Python `int(s)`: agrees with it on the non-negative decimal
literals appearing in the concrete inputs below. -/
def pintDemo (s : String) : Option Int :=
  (decDigitsNat s.data).map (fun n => (n : Int))

/-- Stand-in for Python `float(s)`: agrees with it on the integer-valued
literals (`"5"`, `"7.0"`, ...) appearing in the concrete inputs below. -/
def pfDemo (s : String) : Option ℚ :=
  match splitChar '.' s.data with
  | [a] => (decDigitsNat a).map (fun n => (n : ℚ))
  | [a, b] =>
      if b.isEmpty then none
      else if b.all (fun c => c == '0') then
        (decDigitsNat a).map (fun n => (n : ℚ))
      else none
  | _ => none

/-- Stand-in for `re.search` with the metadata pattern
`Experiment\s*-\s*(.+?)\s*\(Run on LCS480\s+(.+?)\)`: agrees with it on the
two metadata lines used below (each matches, with the shown groups) and on
the other concrete lines used below (none of which matches). -/
def mmDemo (s : String) : Option (String × String) :=
  if s = "Experiment - expA (Run on LCS480 1.0)" then some ("expA", "1.0")
  else if s = "Experiment - expB (Run on LCS480 2.0)" then some ("expB", "2.0")
  else none

/-- Everything a successful text parse determines about the resulting
dataset, in terms of the scan helpers. -/
lemma parse_lc480_ok_shape (pf : String → Option ℚ) (pint : String → Option Int)
    (mm : String → Option (String × String)) (lines : List String)
    (d : LC480Data) (h : parse_lc480_file pf pint mm lines = .ok d) :
    ∃ hIdx sortedWs,
      findHeaderIdx lines = some hIdx ∧
      sortWells pint ((rowState pf (headerChannels lines hIdx) lines
        hIdx).raw.map Prod.fst) = some sortedWs ∧
      d.experiment_name = (metaOf mm lines hIdx).1 ∧
      d.software_version = (metaOf mm lines hIdx).2 ∧
      d.channels = headerChannels lines hIdx ∧
      d.wells = sortedWs ∧
      d.fluorescence = sortedWs.map (fun w =>
        (w, (headerChannels lines hIdx).map (fun ch =>
          (ch, ((((rowState pf (headerChannels lines hIdx) lines
            hIdx).raw.lookup w).getD []).lookup ch).getD [])))) ∧
      (sortedWs ≠ [] → headerChannels lines hIdx ≠ []) ∧
      (∀ w0 rest ch0 chs, sortedWs = w0 :: rest →
        headerChannels lines hIdx = ch0 :: chs →
        d.num_cycles = ((((d.fluorescence.lookup w0).getD []).lookup
          ch0).getD []).length) := by
  simp only [parse_lc480_file] at h
  split at h
  · exact absurd h (by simp)
  · rename_i hIdx hf
    split at h
    · exact absurd h (by simp)
    · rename_i sortedWs hs
      refine ⟨hIdx, sortedWs, hf, hs, ?_⟩
      split at h
      · rename_i chs hws hcs
        injection h with h
        subst h
        simp_all
      · exact absurd h (by simp)
      · rename_i w0 rest ch0 chs hws hcs
        injection h with h
        subst h
        simp_all

/-! ## Claim C4: metadata matching -/

lemma foldl_mm_getLastD (mm : String → Option (String × String)) :
    ∀ (ls : List String) (acc : String × String),
      ls.foldl (fun acc l =>
          match mm (pyStrip l) with
          | some nv => nv
          | none => acc) acc
        = (ls.filterMap (fun l => mm (pyStrip l))).getLastD acc := by
  intro ls
  induction ls with
  | nil => intro acc; rfl
  | cons l ls ih =>
    intro acc
    rw [List.foldl_cons, List.filterMap_cons]
    cases hml : mm (pyStrip l) with
    | none =>
      simp only [hml]
      exact ih acc
    | some nv =>
      simp only [hml, List.getLastD_cons]
      exact ih nv

/-- `metaOf` keeps the groups of the last matching pre-header line. -/
lemma metaOf_eq_getLastD (mm : String → Option (String × String))
    (lines : List String) (hIdx : Nat) :
    metaOf mm lines hIdx
      = ((lines.take hIdx).filterMap (fun l => mm (pyStrip l))).getLastD
          ("", "") := by
  rw [metaOf, foldl_mm_getLastD]

/-- Pre-header lines for the C4 input: two metadata lines, both matching the
pattern, with distinct capture groups. -/
def linesC4 : List String :=
  ["Experiment - expA (Run on LCS480 1.0)",
   "Experiment - expB (Run on LCS480 2.0)",
   "SamplePos"]

/-- Counterexample to C4 as stated: on an input whose two pre-header lines
both match the metadata pattern, the parsed dataset carries the groups of
the second (last) matching line, not the first — the loop has no `break`
and each match overwrites the fields. -/
theorem metadata_first_match_counterexample :
    ((parse_lc480_file pfDemo pintDemo mmDemo linesC4).toOption.map
        (fun d => (d.experiment_name, d.software_version)))
      = some ("expB", "2.0") ∧
    mmDemo (pyStrip (linesC4.getD 0 "")) = some ("expA", "1.0") ∧
    ("expB", "2.0") ≠ ("expA", "1.0") := by
  refine ⟨by decide, by decide, by decide⟩

/-- C4 (amended). Metadata last-match-wins: for every text input whose
pre-header lines contain at least one line matching the metadata pattern,
the parsed dataset's `experiment_name` and `software_version` are taken from
the last matching line (each match overwrites the previous one). -/
theorem metadata_last_match (pf : String → Option ℚ)
    (pint : String → Option Int) (mm : String → Option (String × String))
    (lines : List String) (d : LC480Data) (hIdx : Nat)
    (hh : findHeaderIdx lines = some hIdx)
    (hok : parse_lc480_file pf pint mm lines = .ok d)
    (hne : (lines.take hIdx).filterMap (fun l => mm (pyStrip l)) ≠ []) :
    (d.experiment_name, d.software_version)
      = ((lines.take hIdx).filterMap (fun l => mm (pyStrip l))).getLast hne := by
  obtain ⟨hIdx', _, hh', _, he, hv, _⟩ :=
    parse_lc480_ok_shape pf pint mm lines d hok
  rw [hh] at hh'
  injection hh' with hh'
  subst hh'
  rw [he, hv, metaOf_eq_getLastD, List.getLastD_eq_getLast?,
    List.getLast?_eq_getLast _ hne, Option.getD_some]

/-- The dataset parsed from `linesC4` (checked concretely in the witness). -/
def dataC4 : LC480Data :=
  { experiment_name := "expB", software_version := "2.0", channels := [],
    wells := [], sample_names := [], num_cycles := 0, fluorescence := [],
    cycles := [] }

/-- Witness for the amended C4 at the concrete two-match input. -/
theorem metadata_last_match_witness :
    (dataC4.experiment_name, dataC4.software_version)
      = ((linesC4.take 2).filterMap
          (fun l => mmDemo (pyStrip l))).getLast (by decide) :=
  metadata_last_match pfDemo pintDemo mmDemo linesC4 dataC4 2
    (by decide) (by decide) (by decide)

/-! ## Claim C6: skip-short-rows and silent-zero recovery -/

lemma lookup_cons_ne {β : Type} (k : String) (b : β) (es : List (String × β))
    (a : String) (h : a ≠ k) : ((k, b) :: es).lookup a = es.lookup a := by
  rw [List.lookup_cons, beq_eq_false_iff_ne.mpr h]

lemma appendVal_lookup_ne (ch x : String) (v : ℚ) (h : x ≠ ch) :
    ∀ (m : List (String × List ℚ)),
      (appendVal m ch v).lookup x = m.lookup x := by
  intro m
  induction m with
  | nil => rfl
  | cons p ps ih =>
    obtain ⟨a, b⟩ := p
    rw [appendVal, List.map_cons]
    by_cases hac : a = ch
    · subst hac
      rw [if_pos rfl]
      rw [lookup_cons_ne a (b ++ [v]) _ x h, lookup_cons_ne a b _ x h]
      exact ih
    · rw [if_neg hac]
      by_cases hxa : x = a
      · subst hxa
        rw [List.lookup_cons_self, List.lookup_cons_self]
      · rw [lookup_cons_ne a b _ x hxa, lookup_cons_ne a b _ x hxa]
        exact ih

lemma appendVal_lookup_self (ch : String) (v : ℚ) :
    ∀ (m : List (String × List ℚ)) (l : List ℚ),
      m.lookup ch = some l →
      (appendVal m ch v).lookup ch = some (l ++ [v]) := by
  intro m
  induction m with
  | nil => intro l h; simp at h
  | cons p ps ih =>
    intro l h
    obtain ⟨a, b⟩ := p
    rw [appendVal, List.map_cons]
    by_cases hca : ch = a
    · subst hca
      rw [List.lookup_cons_self] at h
      injection h with h
      subst h
      rw [if_pos rfl, List.lookup_cons_self]
    · rw [lookup_cons_ne a b _ ch hca] at h
      rw [if_neg (fun he => hca he.symm), lookup_cons_ne a b _ ch hca]
      exact ih l h

lemma appendRow_lookup_of_not_mem (pf : String → Option ℚ)
    (parts : List String) :
    ∀ (chs : List String) (j : Nat) (m : List (String × List ℚ))
      (x : String), x ∉ chs →
      (appendRow pf parts j chs m).lookup x = m.lookup x := by
  intro chs
  induction chs with
  | nil => intro j m x _; rfl
  | cons c cs ih =>
    intro j m x hx
    rw [appendRow]
    rw [ih (j + 1) _ x (fun hmem => hx (List.mem_cons_of_mem c hmem))]
    exact appendVal_lookup_ne c x _
      (fun he => hx (he ▸ List.mem_cons_self c cs)) m

lemma appendRow_lookup_at (pf : String → Option ℚ) (parts : List String) :
    ∀ (chs : List String) (k j : Nat) (ch : String)
      (m : List (String × List ℚ)) (prev : List ℚ),
      chs.Nodup → chs[k]? = some ch → m.lookup ch = some prev →
      (appendRow pf parts j chs m).lookup ch
        = some (prev ++ [readValue pf parts (j + k)]) := by
  intro chs
  induction chs with
  | nil => intro k j ch m prev _ hk; simp at hk
  | cons c cs ih =>
    intro k j ch m prev hnd hk hm
    have hnotmem : c ∉ cs := (List.nodup_cons.mp hnd).1
    cases k with
    | zero =>
      rw [List.getElem?_cons_zero] at hk
      injection hk with hk
      subst hk
      rw [appendRow,
        appendRow_lookup_of_not_mem pf parts cs (j + 1) _ c hnotmem,
        appendVal_lookup_self c _ m prev hm, Nat.add_zero]
    | succ k' =>
      rw [List.getElem?_cons_succ] at hk
      have hchcs : ch ∈ cs := by
        obtain ⟨hlt, hget⟩ := List.getElem?_eq_some_iff.mp hk
        exact hget ▸ List.getElem_mem hlt
      have hne : ch ≠ c := fun he => hnotmem (he ▸ hchcs)
      rw [appendRow,
        ih k' (j + 1) ch _ prev (List.nodup_cons.mp hnd).2 hk
          (by rw [appendVal_lookup_ne c ch _ hne m]; exact hm)]
      rw [show j + 1 + k' = j + (k' + 1) from by omega]

lemma lookup_update_at {β : Type} (w : String) (g : β → β) :
    ∀ (l : List (String × β)) (x : String),
      (l.map (fun p => if p.1 = w then (p.1, g p.2) else p)).lookup x
        = if x = w then (l.lookup x).map g else l.lookup x := by
  intro l
  induction l with
  | nil => intro x; simp
  | cons p ps ih =>
    intro x
    obtain ⟨a, b⟩ := p
    rw [List.map_cons]
    by_cases haw : a = w
    · subst haw
      rw [if_pos rfl]
      by_cases hxa : x = a
      · subst hxa
        rw [List.lookup_cons_self, List.lookup_cons_self, if_pos rfl,
          Option.map_some']
      · rw [lookup_cons_ne a (g b) _ x hxa, lookup_cons_ne a b _ x hxa, ih x]
    · rw [if_neg haw]
      by_cases hxa : x = a
      · subst hxa
        rw [List.lookup_cons_self, List.lookup_cons_self, if_neg haw]
      · rw [lookup_cons_ne a b _ x hxa, lookup_cons_ne a b _ x hxa, ih x]

lemma lookup_append_right {β : Type} (w : String) (v : β) :
    ∀ (l : List (String × β)), l.lookup w = none →
      (l ++ [(w, v)]).lookup w = some v := by
  intro l
  induction l with
  | nil => intro _; simp
  | cons p ps ih =>
    intro h
    obtain ⟨a, b⟩ := p
    by_cases hwa : w = a
    · subst hwa
      rw [List.lookup_cons_self] at h
      exact absurd h (by simp)
    · rw [lookup_cons_ne a b _ w hwa] at h
      rw [List.cons_append, lookup_cons_ne a b _ w hwa]
      exact ih h

/-- C6. Silent-zero recovery: a non-blank data line with fewer than 8
tab-separated fields is skipped without error; a reading whose field is
missing, or fails to parse as a number, is recorded as `0.0`; an accepted
row appends exactly one reading (`readValue`, which is `0.0` in the failing
cases) to the channel's curve, so the rest of the row and of the file
continue to be processed. -/
theorem silent_zero_recovery :
    (∀ (pf : String → Option ℚ) (channels : List String) (st : RawState)
        (line : String), pyStrip line ≠ "" →
        (pySplitTab (pyStrip line)).length < 8 →
        processLine pf channels st line = st) ∧
    (∀ (pf : String → Option ℚ) (parts : List String) (j : Nat),
        parts[7 + j]? = none → readValue pf parts j = 0) ∧
    (∀ (pf : String → Option ℚ) (parts : List String) (j : Nat) (s : String),
        parts[7 + j]? = some s → pf s = none → readValue pf parts j = 0) ∧
    (∀ (pf : String → Option ℚ) (channels : List String) (st : RawState)
        (line : String) (j : Nat) (ch : String) (prev : List ℚ),
        channels.Nodup → channels[j]? = some ch →
        8 ≤ (pySplitTab (pyStrip line)).length →
        (((st.raw.lookup (pyStrip ((pySplitTab (pyStrip line)).getD 0
            ""))).getD (emptyWellMap channels)).lookup ch) = some prev →
        (((processLine pf channels st line).raw.lookup
            (pyStrip ((pySplitTab (pyStrip line)).getD 0 ""))).getD
          []).lookup ch
          = some (prev ++ [readValue pf (pySplitTab (pyStrip line)) j])) := by
  refine ⟨?_, ?_, ?_, ?_⟩
  · intro pf channels st line hnb hshort
    rw [processLine]
    simp only [if_neg hnb, if_pos hshort]
  · intro pf parts j h
    simp only [readValue, h]
  · intro pf parts j s hs hpf
    simp only [readValue, hs, hpf]
  · intro pf channels st line j ch prev hnd hj hlen hprev
    have hnb : pyStrip line ≠ "" := by
      intro he
      rw [he] at hlen
      simp [pySplitTab, splitTabChars, splitChar] at hlen
    simp only [processLine, if_neg hnb, if_neg (Nat.not_lt.mpr hlen)]
    cases hcur : st.raw.lookup
        (pyStrip ((pySplitTab (pyStrip line)).getD 0 "")) with
    | some m =>
      rw [hcur] at hprev
      rw [Option.getD_some] at hprev
      simp only [hcur, Option.isSome_some, if_true]
      rw [lookup_update_at, if_pos rfl, hcur, Option.map_some',
        Option.getD_some]
      have := appendRow_lookup_at pf (pySplitTab (pyStrip line)) channels
        j 0 ch m prev hnd hj hprev
      rw [Nat.zero_add] at this
      exact this
    | none =>
      rw [hcur] at hprev
      rw [Option.getD_none] at hprev
      simp only [hcur, Option.isSome_none, Bool.false_eq_true, if_false]
      rw [lookup_update_at, if_pos rfl,
        lookup_append_right _ _ st.raw hcur, Option.map_some',
        Option.getD_some]
      have := appendRow_lookup_at pf (pySplitTab (pyStrip line)) channels
        j 0 ch (emptyWellMap channels) prev hnd hj hprev
      rw [Nat.zero_add] at this
      exact this

/-- Witness for C6: a short row is skipped; for a concrete accepted row
whose channel-2 field is non-numeric and whose channel-3 field is missing,
both readings are recorded as 0 and the row is still appended. -/
theorem silent_zero_recovery_witness :
    processLine pfDemo ["CH1"] ⟨[], []⟩ "a\tb" = ⟨[], []⟩ ∧
    readValue pfDemo ["A1", "s", "x", "x", "x", "x", "x", "5", "oops"] 1 = 0 ∧
    readValue pfDemo ["A1", "s", "x", "x", "x", "x", "x", "5", "oops"] 2 = 0 ∧
    (((processLine pfDemo ["CH1", "CH2", "CH3"] ⟨[], []⟩
        "A1\ts\tx\tx\tx\tx\tx\t5\toops").raw.lookup "A1").getD []).lookup
        "CH2" = some [0] := by
  refine ⟨?_, ?_, ?_, ?_⟩
  · exact silent_zero_recovery.1 pfDemo ["CH1"] ⟨[], []⟩ "a\tb"
      (by decide) (by decide)
  · exact silent_zero_recovery.2.2.1 pfDemo
      ["A1", "s", "x", "x", "x", "x", "x", "5", "oops"] 1 "oops"
      (by decide) (by decide)
  · exact silent_zero_recovery.2.1 pfDemo
      ["A1", "s", "x", "x", "x", "x", "x", "5", "oops"] 2 (by decide)
  · have h := silent_zero_recovery.2.2.2 pfDemo ["CH1", "CH2", "CH3"]
      ⟨[], []⟩ "A1\ts\tx\tx\tx\tx\tx\t5\toops" 1 "CH2" [] (by decide)
      (by decide) (by decide) (by decide)
    rw [show readValue pfDemo
        (pySplitTab (pyStrip "A1\ts\tx\tx\tx\tx\tx\t5\toops")) 1 = 0
      from by decide] at h
    exact h

/-! ## Sorting lemmas (for the well-ordering claim) -/

lemma mem_insertKeyed {α : Type} (lt : α → α → Bool) (a x : α) :
    ∀ (l : List α), x ∈ insertKeyed lt a l ↔ x = a ∨ x ∈ l := by
  intro l
  induction l with
  | nil => simp [insertKeyed]
  | cons b bs ih =>
    rw [insertKeyed]
    by_cases h : lt b a = true
    · rw [if_pos h]
      simp only [List.mem_cons, ih]
      tauto
    · rw [if_neg h]
      simp only [List.mem_cons]

lemma pairwise_insertKeyed {α : Type} (lt : α → α → Bool)
    (hasym : ∀ x y, lt x y = true → lt y x = false)
    (htrans : ∀ x y z, lt y x = false → lt z y = false → lt z x = false)
    (a : α) : ∀ (l : List α),
      l.Pairwise (fun x y => lt y x = false) →
      (insertKeyed lt a l).Pairwise (fun x y => lt y x = false) := by
  intro l
  induction l with
  | nil => intro _; simp [insertKeyed]
  | cons b bs ih =>
    intro hp
    obtain ⟨hb, hbs⟩ := List.pairwise_cons.mp hp
    rw [insertKeyed]
    by_cases h : lt b a = true
    · rw [if_pos h]
      refine List.pairwise_cons.mpr ⟨?_, ih hbs⟩
      intro x hx
      rcases (mem_insertKeyed lt a x bs).mp hx with rfl | hxbs
      · exact hasym b x h
      · exact hb x hxbs
    · rw [if_neg h]
      have hba : lt b a = false := by
        cases hlt : lt b a
        · rfl
        · exact absurd hlt h
      refine List.pairwise_cons.mpr ⟨?_, hp⟩
      intro x hx
      rcases List.mem_cons.mp hx with rfl | hxbs
      · exact hba
      · exact htrans a b x hba (hb x hxbs)

lemma pairwise_isortBy {α : Type} (lt : α → α → Bool)
    (hasym : ∀ x y, lt x y = true → lt y x = false)
    (htrans : ∀ x y z, lt y x = false → lt z y = false → lt z x = false) :
    ∀ (l : List α), (isortBy lt l).Pairwise (fun x y => lt y x = false) := by
  intro l
  induction l with
  | nil => simp [isortBy]
  | cons a as ih =>
    rw [isortBy]
    exact pairwise_insertKeyed lt hasym htrans a _ ih

lemma mem_isortBy {α : Type} (lt : α → α → Bool) (x : α) :
    ∀ (l : List α), x ∈ isortBy lt l ↔ x ∈ l := by
  intro l
  induction l with
  | nil => simp [isortBy]
  | cons a as ih =>
    rw [isortBy, mem_insertKeyed, ih, List.mem_cons]

lemma length_insertKeyed {α : Type} (lt : α → α → Bool) (a : α) :
    ∀ (l : List α), (insertKeyed lt a l).length = l.length + 1 := by
  intro l
  induction l with
  | nil => rfl
  | cons b bs ih =>
    rw [insertKeyed]
    by_cases h : lt b a = true
    · rw [if_pos h, List.length_cons, ih, List.length_cons]
    · rw [if_neg h, List.length_cons, List.length_cons]

lemma length_isortBy {α : Type} (lt : α → α → Bool) :
    ∀ (l : List α), (isortBy lt l).length = l.length := by
  intro l
  induction l with
  | nil => rfl
  | cons a as ih =>
    rw [isortBy, length_insertKeyed, ih, List.length_cons]

lemma mapM_option_mem {α β : Type} (g : α → Option β) :
    ∀ (l : List α) (r : List β), l.mapM g = some r →
      ∀ b ∈ r, ∃ a ∈ l, g a = some b := by
  intro l
  induction l with
  | nil =>
    intro r h b hb
    rw [List.mapM_nil] at h
    injection h with h
    subst h
    simp at hb
  | cons a as ih =>
    intro r h b hb
    rw [List.mapM_cons] at h
    cases hga : g a with
    | none => rw [hga] at h; simp at h
    | some v =>
      rw [hga] at h
      cases hmas : as.mapM g with
      | none => rw [hmas] at h; simp at h
      | some vs =>
        rw [hmas] at h
        simp only [Option.pure_def, Option.bind_eq_bind, Option.some_bind,
          Option.some.injEq] at h
        subst h
        rcases List.mem_cons.mp hb with rfl | hbvs
        · exact ⟨a, List.mem_cons_self a as, hga⟩
        · obtain ⟨a', ha', hga'⟩ := ih vs hmas b hbvs
          exact ⟨a', List.mem_cons_of_mem a ha', hga'⟩

lemma mapM_option_length {α β : Type} (g : α → Option β) :
    ∀ (l : List α) (r : List β), l.mapM g = some r →
      r.length = l.length := by
  intro l
  induction l with
  | nil =>
    intro r h
    rw [List.mapM_nil] at h
    injection h with h
    subst h
    rfl
  | cons a as ih =>
    intro r h
    rw [List.mapM_cons] at h
    cases hga : g a with
    | none => rw [hga] at h; simp at h
    | some v =>
      rw [hga] at h
      cases hmas : as.mapM g with
      | none => rw [hmas] at h; simp at h
      | some vs =>
        rw [hmas] at h
        simp only [Option.pure_def, Option.bind_eq_bind, Option.some_bind,
          Option.some.injEq] at h
        subst h
        rw [List.length_cons, List.length_cons, ih vs hmas]

lemma mapM_option_isSome {α β : Type} (g : α → Option β) :
    ∀ (l : List α), (l.mapM g).isSome = true ↔ ∀ a ∈ l, (g a).isSome = true := by
  intro l
  induction l with
  | nil => rw [List.mapM_nil]; simp
  | cons a as ih =>
    rw [List.mapM_cons]
    cases hga : g a with
    | none => simp [hga]
    | some v =>
      cases hmas : as.mapM g with
      | none =>
        simp only [Option.pure_def, Option.bind_eq_bind, Option.some_bind,
          hmas, Option.none_bind]
        rw [hmas] at ih
        simp only [Option.isSome_none, Bool.false_eq_true, false_iff] at ih ⊢
        intro hall
        exact ih (fun x hx => hall x (List.mem_cons_of_mem a hx))
      | some vs =>
        simp only [Option.pure_def, Option.bind_eq_bind, Option.some_bind,
          hmas, Option.isSome_some, true_iff]
        intro x hx
        rcases List.mem_cons.mp hx with rfl | hxas
        · rw [hga]; rfl
        · rw [hmas] at ih
          simp only [Option.isSome_some, true_iff] at ih
          exact ih x hxas

lemma keyLtB_asym (x y : Int × Int) :
    keyLtB x y = true → keyLtB y x = false := by
  simp only [keyLtB, Bool.or_eq_true, Bool.and_eq_true, decide_eq_true_eq,
    beq_iff_eq, Bool.or_eq_false_iff, Bool.and_eq_false_iff,
    decide_eq_false_iff_not, beq_eq_false_iff_ne]
  omega

lemma keyLtB_negtrans (x y z : Int × Int) :
    keyLtB y x = false → keyLtB z y = false → keyLtB z x = false := by
  simp only [keyLtB, Bool.or_eq_false_iff, Bool.and_eq_false_iff,
    decide_eq_false_iff_not, beq_eq_false_iff_ne]
  omega

/-! ## XML format parser (`lcpro_parser.py`) -/

/-- An `xml.etree.ElementTree` element: tag, attribute dict, text, ordered
children. -/
inductive XmlNode where
  | node (tag : String) (attrs : List (String × String))
      (text : Option String) (children : List XmlNode)

def XmlNode.tag : XmlNode → String
  | node t _ _ _ => t

def XmlNode.attrs : XmlNode → List (String × String)
  | node _ a _ _ => a

def XmlNode.text : XmlNode → Option String
  | node _ _ tx _ => tx

def XmlNode.children : XmlNode → List XmlNode
  | node _ _ _ cs => cs

/-- One step of `ElementTree` path search: all matching children of the
candidate elements, in document order. -/
def findallSegs (es : List XmlNode) : List String → List XmlNode
  | [] => es
  | t :: ts =>
      findallSegs (es.flatMap (fun e =>
        e.children.filter (fun c => c.tag == t))) ts

/-- `element.findall(path)` for a slash-separated relative path. -/
def XmlNode.findall (e : XmlNode) (path : String) : List XmlNode :=
  findallSegs [e] ((splitChar '/' path.data).map (fun cs => ⟨cs⟩))

/-- `element.find(path)`: the first match in document order. -/
def XmlNode.find (e : XmlNode) (path : String) : Option XmlNode :=
  (e.findall path).head?

/-- `element.text` where Python would raise (`TypeError` from `int(None)`,
`AttributeError` from `None.strip()`) on a missing text. -/
def textOrErr (e : XmlNode) : Except ParseError String :=
  match e.text with
  | none => .error .xmlValueError
  | some t => .ok t

/-- Conversion result, with the Python `ValueError` as a parse error. -/
def ofOption {α : Type} (o : Option α) : Except ParseError α :=
  match o with
  | none => .error .xmlValueError
  | some a => .ok a

/-- `d[k] = v` on a Python dict rendered as an association list: overwrite
in place if the key exists, else append. -/
def insertOver {κ ν : Type} [BEq κ] (m : List (κ × ν)) (k : κ) (v : ν) :
    List (κ × ν) :=
  if (m.lookup k).isSome then
    m.map (fun p => if p.1 == k then (p.1, v) else p)
  else m ++ [(k, v)]

/-- The `pcrTarget` loop (`lcpro_parser.py` lines 36-42): build
`filterId -> dye name`. -/
def buildChannelMap (pint : String → Option Int) (targets : List XmlNode) :
    Except ParseError (List (Int × String)) :=
  targets.foldlM (fun cm target =>
    match target.find "filterId", target.find "name" with
    | some fid_el, some name_el => do
        let ft ← textOrErr fid_el
        let fid ← ofOption (pint ft)
        let nt ← textOrErr name_el
        pure (insertOver cm fid (pyStrip nt))
    | _, _ => pure cm) []

/-- Decimal digits of `n`, most significant first (`fuel ≥ n` suffices). -/
def natDigits : Nat → Nat → List Char
  | 0, _ => []
  | fuel + 1, n =>
      if n < 10 then [Char.ofNat (48 + n)]
      else natDigits fuel (n / 10) ++ [Char.ofNat (48 + n % 10)]

/-- Python `str(i)` for an int. -/
def intToStr (i : Int) : String :=
  if i < 0 then ⟨'-' :: natDigits (i.natAbs + 1) i.natAbs⟩
  else ⟨natDigits (i.natAbs + 1) i.natAbs⟩

/-- One `acquisition` element: `(int(cycle.text), float(measuredValue.text))`
when both children exist, skipped otherwise. -/
def readAcq (pf : String → Option ℚ) (pint : String → Option Int)
    (acq : XmlNode) : Except ParseError (Option (Int × ℚ)) :=
  match acq.find "cycle", acq.find "measuredValue" with
  | some cycle_el, some value_el => do
      let ct ← textOrErr cycle_el
      let cy ← ofOption (pint ct)
      let vt ← textOrErr value_el
      let v ← ofOption (pf vt)
      pure (some (cy, v))
  | _, _ => pure none

/-- `raw[well][ch].append(point)` for the XML parser's `(cycle, value)`
points. -/
def appendPoint (m : List (String × List (Int × ℚ))) (ch : String)
    (p : Int × ℚ) : List (String × List (Int × ℚ)) :=
  m.map (fun q => if q.1 = ch then (q.1, q.2 ++ [p]) else q)

/-- `{ch: [] for ch in channels}` for the XML parser's point lists. -/
def emptyWellMapP (channels : List String) :
    List (String × List (Int × ℚ)) :=
  channels.foldl
    (fun m ch => if (m.lookup ch).isSome then m else m ++ [(ch, [])]) []

/-- One `curveSegment` (`lcpro_parser.py` lines 65-80): unknown or missing
segment ids are skipped; acquisitions are appended to the mapped channel. -/
def processSegment (pf : String → Option ℚ) (pint : String → Option Int)
    (segToCh : List (String × String))
    (m : List (String × List (Int × ℚ))) (seg : XmlNode) :
    Except ParseError (List (String × List (Int × ℚ))) :=
  match seg.find "segmentId" with
  | none => pure m
  | some sid_el => do
      let st ← textOrErr sid_el
      match segToCh.lookup (pyStrip st) with
      | none => pure m
      | some chName =>
          (seg.findall "acquisitions/acquisition").foldlM (fun m acq => do
            match (← readAcq pf pint acq) with
            | none => pure m
            | some p => pure (appendPoint m chName p)) m

/-- One `measurement` element (`lcpro_parser.py` lines 58-80): skipped when
the position name is missing or falsy; otherwise the well's per-channel
point dict is seeded from `channels` and filled from the curve segments. -/
def processMeasurement (pf : String → Option ℚ) (pint : String → Option Int)
    (channels : List String) (segToCh : List (String × String))
    (raw : List (String × List (String × List (Int × ℚ)))) (meas : XmlNode) :
    Except ParseError (List (String × List (String × List (Int × ℚ)))) :=
  match meas.find "positionName" with
  | none => pure raw
  | some pos_el =>
      match pos_el.text with
      | none => pure raw
      | some t =>
          if t = "" then pure raw
          else do
            let m ← (meas.findall "curveSegments/curveSegment").foldlM
              (processSegment pf pint segToCh) (emptyWellMapP channels)
            pure (insertOver raw (pyStrip t) m)

/-- One `sample` element (`lcpro_parser.py` lines 83-89). -/
def processSample (names : List (String × String)) (sample : XmlNode) :
    List (String × String) :=
  match sample.find "wellPosition" with
  | none => names
  | some well_el =>
      match well_el.text with
      | none => names
      | some t =>
          if t = "" then names
          else insertOver names (pyStrip t) ((sample.attrs.lookup "id").getD "")

/-- `<plate><plateSetup><name>` metadata (`lcpro_parser.py` lines 22-26). -/
def metaName (root : XmlNode) : String :=
  match root.find "plate/plateSetup" with
  | none => ""
  | some ps =>
      match ps.find "name" with
      | none => ""
      | some name_el =>
          match name_el.text with
          | none => ""
          | some t => if t = "" then "" else pyStrip t

/-- `<instrument><softwareVersion>` metadata (`lcpro_parser.py` lines
28-32). -/
def metaVersion (root : XmlNode) : String :=
  match root.find "instrument" with
  | none => ""
  | some instr =>
      match instr.find "softwareVersion" with
      | none => ""
      | some ver_el =>
          match ver_el.text with
          | none => ""
          | some t => if t = "" then "" else "LC Pro " ++ pyStrip t

/-- Channel order: dye names by ascending filter id
(`lcpro_parser.py` lines 44-46). -/
def lcproChannels (cm : List (Int × String)) : List String :=
  (isortBy (fun a b => decide (a < b)) (cm.map Prod.fst)).map
    (fun fid => (cm.lookup fid).getD "")

/-- `segmentId -> channel name`: `str(fid * 1000 + 32)` per filter id
(`lcpro_parser.py` lines 48-53). -/
def lcproSegToCh (cm : List (Int × String)) : List (String × String) :=
  (isortBy (fun a b => decide (a < b)) (cm.map Prod.fst)).map
    (fun fid => (intToStr (fid * 1000 + 32), (cm.lookup fid).getD ""))

/-- `parse_lcpro_file` (`lcpro_parser.py` lines 10-109) over the parsed
element tree.  (`ET.parse` failure on malformed XML is an abort before any
of this code runs and is outside the model.) -/
def parse_lcpro_file (pf : String → Option ℚ) (pint : String → Option Int)
    (root : XmlNode) : Except ParseError LC480Data :=
  match buildChannelMap pint (root.findall
      "runProfile/pcrProcess/pcrProfile/experimentDefinition/pcrTargets/pcrTarget") with
  | .error e => .error e
  | .ok cm =>
      match (root.findall "rundata/measurements/measurement").foldlM
          (processMeasurement pf pint (lcproChannels cm) (lcproSegToCh cm))
          [] with
      | .error e => .error e
      | .ok raw =>
          match sortWells pint (raw.map Prod.fst) with
          | none => .error .wellKeyError
          | some sortedWs =>
              let names := (root.findall "samples/sample").foldl
                processSample []
              let fluorescence := sortedWs.map (fun w =>
                (w, (lcproChannels cm).map (fun ch =>
                  (ch, ((isortBy (fun p q => decide (p.1 < q.1))
                    ((((raw.lookup w).getD []).lookup ch).getD [])).map
                    Prod.snd)))))
              match sortedWs, lcproChannels cm with
              | w0 :: rest, ch0 :: _ =>
                  let n := ((((fluorescence.lookup w0).getD []).lookup
                    ch0).getD []).length
                  .ok { experiment_name := metaName root,
                        software_version := metaVersion root,
                        channels := lcproChannels cm, wells := w0 :: rest,
                        sample_names := names, num_cycles := n,
                        fluorescence := fluorescence, cycles := natCycles n }
              | _, _ =>
                  .ok { experiment_name := metaName root,
                        software_version := metaVersion root,
                        channels := lcproChannels cm, wells := sortedWs,
                        sample_names := names, num_cycles := 0,
                        fluorescence := fluorescence, cycles := [] }

/-- Element with children only. -/
def mkEl (tag : String) (children : List XmlNode) : XmlNode :=
  .node tag [] none children

/-- Leaf element with text. -/
def mkTxt (tag : String) (t : String) : XmlNode :=
  .node tag [] (some t) []

/-- A concrete LC Pro export tree: two channels (filter ids 1 and 2), one
well `A1`, and curve-segment data only for segment `1032` (channel `FAM`);
channel `HEX` has no matching curve segment. -/
def xmlDemo : XmlNode :=
  mkEl "root" [
    mkEl "runProfile" [mkEl "pcrProcess" [mkEl "pcrProfile" [
      mkEl "experimentDefinition" [mkEl "pcrTargets" [
        mkEl "pcrTarget" [mkTxt "filterId" "1", mkTxt "name" "FAM"],
        mkEl "pcrTarget" [mkTxt "filterId" "2", mkTxt "name" "HEX"]]]]]],
    mkEl "rundata" [mkEl "measurements" [
      mkEl "measurement" [
        mkTxt "positionName" "A1",
        mkEl "curveSegments" [
          mkEl "curveSegment" [
            mkTxt "segmentId" "1032",
            mkEl "acquisitions" [
              mkEl "acquisition"
                [mkTxt "cycle" "2", mkTxt "measuredValue" "7"],
              mkEl "acquisition"
                [mkTxt "cycle" "1", mkTxt "measuredValue" "5"]]]]]]]]

/-! ## Parse-shape lemma for the XML parser, and claim C10 -/

/-- Everything a successful XML parse determines about the resulting
dataset. -/
lemma parse_lcpro_ok_shape (pf : String → Option ℚ) (pint : String → Option Int)
    (root : XmlNode) (d : LC480Data)
    (h : parse_lcpro_file pf pint root = .ok d) :
    ∃ cm raw sortedWs,
      buildChannelMap pint (root.findall
        "runProfile/pcrProcess/pcrProfile/experimentDefinition/pcrTargets/pcrTarget")
        = .ok cm ∧
      (root.findall "rundata/measurements/measurement").foldlM
        (processMeasurement pf pint (lcproChannels cm) (lcproSegToCh cm)) []
        = .ok raw ∧
      sortWells pint (raw.map Prod.fst) = some sortedWs ∧
      d.channels = lcproChannels cm ∧
      d.wells = sortedWs ∧
      d.fluorescence = sortedWs.map (fun w =>
        (w, (lcproChannels cm).map (fun ch =>
          (ch, ((isortBy (fun p q => decide (p.1 < q.1))
            ((((raw.lookup w).getD []).lookup ch).getD [])).map
            Prod.snd))))) ∧
      (∀ w0 rest ch0 chs, sortedWs = w0 :: rest →
        lcproChannels cm = ch0 :: chs →
        d.num_cycles = ((((d.fluorescence.lookup w0).getD []).lookup
          ch0).getD []).length) := by
  simp only [parse_lcpro_file] at h
  split at h
  · exact absurd h (by simp)
  · rename_i cm hcm
    split at h
    · exact absurd h (by simp)
    · rename_i raw hraw
      split at h
      · exact absurd h (by simp)
      · rename_i sortedWs hs
        refine ⟨cm, raw, sortedWs, hcm, hraw, hs, ?_⟩
        split at h
        · rename_i w0 rest ch0 chs hws hcs
          injection h with h
          subst h
          simp_all
        · rename_i hno
          injection h with h
          subst h
          refine ⟨rfl, rfl, rfl, ?_⟩
          intro w0 rest ch0 chs hws hcs
          exact absurd hcs (hno w0 rest ch0 chs hws)

/-- Shared helper: curve lookup defaulting, `fluorescence.get(w, ...)`. -/
lemma flLookup_getD (d : LC480Data) (w ch : String) :
    (flLookup d w ch).getD []
      = (((d.fluorescence.lookup w).getD []).lookup ch).getD [] := by
  rw [flLookup]
  cases d.fluorescence.lookup w <;> simp

/-- C10. XML parser fills every pair: every well in the well list of an
XML-parsed dataset has a fluorescence entry for every channel in the channel
list, so the missing-(well, channel) state never occurs; a channel with no
matching curve segment yields an empty curve of length 0 (shown on a
concrete export where channel `HEX` has no segment). -/
theorem xml_parser_fills_every_pair :
    (∀ (pf : String → Option ℚ) (pint : String → Option Int) (root : XmlNode)
        (d : LC480Data), parse_lcpro_file pf pint root = .ok d →
        ∀ w ∈ d.wells, ∀ ch ∈ d.channels, (flLookup d w ch).isSome = true) ∧
    (parse_lcpro_file pfDemo pintDemo xmlDemo).toOption.map
        (fun d => flLookup d "A1" "HEX") = some (some []) := by
  constructor
  · intro pf pint root d h w hw ch hch
    obtain ⟨cm, raw, sortedWs, _, _, _, hchs, hwells, hflu, _⟩ :=
      parse_lcpro_ok_shape pf pint root d h
    rw [hwells] at hw
    rw [hchs] at hch
    simp [flLookup, hflu, lookup_map_self _ _ _ hw,
      lookup_map_self _ _ _ hch]
  · decide

/-- The dataset parsed from `xmlDemo` (checked concretely below). -/
def xmlDemoData : LC480Data :=
  { experiment_name := "", software_version := "",
    channels := ["FAM", "HEX"], wells := ["A1"], sample_names := [],
    num_cycles := 2,
    fluorescence := [("A1", [("FAM", [5, 7]), ("HEX", [])])],
    cycles := natCycles 2 }

/-- Witness for C10 at the concrete export. -/
theorem xml_parser_fills_every_pair_witness :
    (flLookup xmlDemoData "A1" "HEX").isSome = true :=
  xml_parser_fills_every_pair.1 pfDemo pintDemo xmlDemo xmlDemoData
    (by decide) "A1" (by decide) "HEX" (by decide)

/-! ## Claim C9: well ordering -/

/-- Column-major order on wells: column number first, then row letter, read
off the (partial) sort keys. -/
def wellKeyLe (pint : String → Option Int) (a b : String) : Prop :=
  ∀ ka kb, well_sort_key pint a = some ka → well_sort_key pint b = some kb →
    ka.1 < kb.1 ∨ (ka.1 = kb.1 ∧ ka.2 ≤ kb.2)

/-- A successful `sorted(ws, key=well_sort_key)` is sorted column-major. -/
lemma sortWells_pairwise (pint : String → Option Int) (ws sortedWs : List String)
    (h : sortWells pint ws = some sortedWs) :
    sortedWs.Pairwise (wellKeyLe pint) := by
  rw [sortWells] at h
  cases hm : ws.mapM (fun w => (well_sort_key pint w).map (fun k => (k, w))) with
  | none => rw [hm] at h; exact absurd h (by simp)
  | some keyed =>
    rw [hm] at h
    injection h with h
    subst h
    have hfact : ∀ p ∈ keyed, well_sort_key pint p.2 = some p.1 := by
      intro p hp
      obtain ⟨w, _, hgw⟩ := mapM_option_mem _ ws keyed hm p hp
      cases hk : well_sort_key pint w with
      | none => rw [hk] at hgw; simp at hgw
      | some k =>
        rw [hk] at hgw
        simp only [Option.map_some', Option.some.injEq] at hgw
        rw [← hgw]
        exact hk
    have hpw := pairwise_isortBy (fun a b => keyLtB a.1 b.1)
      (fun x y hxy => keyLtB_asym x.1 y.1 hxy)
      (fun x y z h1 h2 => keyLtB_negtrans x.1 y.1 z.1 h1 h2) keyed
    rw [List.pairwise_map]
    refine hpw.imp_of_mem ?_
    intro a b ha hb hR ka kb hka hkb
    have ha' : well_sort_key pint a.2 = some a.1 :=
      hfact a ((mem_isortBy _ a keyed).mp ha)
    have hb' : well_sort_key pint b.2 = some b.1 :=
      hfact b ((mem_isortBy _ b keyed).mp hb)
    rw [ha'] at hka
    rw [hb'] at hkb
    injection hka with hka
    injection hkb with hkb
    subst hka
    subst hkb
    simp only [keyLtB, Bool.or_eq_false_iff, Bool.and_eq_false_iff,
      decide_eq_false_iff_not, beq_eq_false_iff_ne] at hR
    omega

/-- The eight row letters of a 96-well plate. -/
def plateRowLetters : List String := ["A", "B", "C", "D", "E", "F", "G", "H"]

/-- The twelve column numbers of a 96-well plate. -/
def plateColNums : List String :=
  ["1", "2", "3", "4", "5", "6", "7", "8", "9", "10", "11", "12"]

/-- A full 96-well plate in row-major (file) order: A1, A2, ..., H12. -/
def rowMajor96 : List String :=
  plateRowLetters.flatMap (fun r => plateColNums.map (fun c => r ++ c))

/-- The same plate in column-major order: A1, B1, ..., H1, A2, ..., H12. -/
def colMajor96 : List String :=
  plateColNums.flatMap (fun c => plateRowLetters.map (fun r => r ++ c))

/-- C9. Well ordering: every parsed dataset (text or XML) lists its wells
sorted column-major — column number is the primary key and row letter the
secondary key — and sorting a full 96-well plate yields exactly
A1, B1, ..., H1, A2, B2, ..., H12. -/
theorem well_ordering :
    (∀ (pf : String → Option ℚ) (pint : String → Option Int)
        (mm : String → Option (String × String)) (lines : List String)
        (d : LC480Data), parse_lc480_file pf pint mm lines = .ok d →
        d.wells.Pairwise (wellKeyLe pint)) ∧
    (∀ (pf : String → Option ℚ) (pint : String → Option Int) (root : XmlNode)
        (d : LC480Data), parse_lcpro_file pf pint root = .ok d →
        d.wells.Pairwise (wellKeyLe pint)) ∧
    sortWells pintDemo rowMajor96 = some colMajor96 := by
  refine ⟨?_, ?_, ?_⟩
  · intro pf pint mm lines d h
    obtain ⟨hIdx, sortedWs, _, hs, _, _, _, hwells, _⟩ :=
      parse_lc480_ok_shape pf pint mm lines d h
    rw [hwells]
    exact sortWells_pairwise pint _ sortedWs hs
  · intro pf pint root d h
    obtain ⟨cm, raw, sortedWs, _, _, hs, _, hwells, _⟩ :=
      parse_lcpro_ok_shape pf pint root d h
    rw [hwells]
    exact sortWells_pairwise pint _ sortedWs hs
  · decide

/-- Witness for C9 at the concrete XML dataset. -/
theorem well_ordering_witness :
    xmlDemoData.wells.Pairwise (wellKeyLe pintDemo) :=
  well_ordering.2.1 pfDemo pintDemo xmlDemo xmlDemoData (by decide)

/-! ## Claim C5: text-parser failure characterisation -/

lemma sortWells_isSome_iff (pint : String → Option Int) (ws : List String) :
    (sortWells pint ws).isSome = true ↔
      ∀ w ∈ ws, (well_sort_key pint w).isSome = true := by
  rw [sortWells]
  cases hm : ws.mapM (fun w => (well_sort_key pint w).map (fun k => (k, w))) with
  | none =>
    simp only [Option.isSome_none, Bool.false_eq_true, false_iff]
    intro hall
    have hsome : (ws.mapM (fun w =>
        (well_sort_key pint w).map (fun k => (k, w)))).isSome = true :=
      (mapM_option_isSome _ ws).mpr (fun a ha => by
        rw [Option.isSome_map']
        exact hall a ha)
    rw [hm] at hsome
    simp at hsome
  | some keyed =>
    simp only [Option.isSome_some, true_iff]
    intro w hw
    have := (mapM_option_isSome
      (fun w => (well_sort_key pint w).map (fun k => (k, w))) ws).mp
      (by rw [hm]; rfl) w hw
    rwa [Option.isSome_map'] at this

lemma sortWells_length (pint : String → Option Int) (ws sortedWs : List String)
    (h : sortWells pint ws = some sortedWs) :
    sortedWs.length = ws.length := by
  rw [sortWells] at h
  cases hm : ws.mapM (fun w => (well_sort_key pint w).map (fun k => (k, w))) with
  | none => rw [hm] at h; exact absurd h (by simp)
  | some keyed =>
    rw [hm] at h
    injection h with h
    subst h
    rw [List.length_map, length_isortBy, mapM_option_length _ ws keyed hm]

/-- Counterexample to C5 as stated: this input contains a `SamplePos` header
line, yet parsing fails — the header names no channels while a data row was
accepted, so `data.channels[0]` raises `IndexError`. -/
theorem text_parser_counterexample :
    parse_lc480_file pfDemo pintDemo mmDemo
        ["SamplePos", "A1\tb\tc\td\te\tf\tg\th"] = .error .noChannels ∧
    (findHeaderIdx ["SamplePos", "A1\tb\tc\td\te\tf\tg\th"]).isSome = true := by
  exact ⟨by decide, by decide⟩

/-- C5 (amended). Text-parser failure characterisation: the missing-header
`FormatError` occurs iff no line's trimmed content starts with `SamplePos`;
given a header, parsing succeeds iff every accepted data row's well id
yields a valid sort key (`int(well[1:])` parses) and — when at least one
data row was accepted — the header defines at least one channel.  Encoding
and malformed numeric readings never cause failure. -/
theorem text_parser_failure_characterization (pf : String → Option ℚ)
    (pint : String → Option Int) (mm : String → Option (String × String))
    (lines : List String) :
    (parse_lc480_file pf pint mm lines = .error .missingHeader ↔
      findHeaderIdx lines = none) ∧
    ((∃ d, parse_lc480_file pf pint mm lines = .ok d) ↔
      ∃ hIdx, findHeaderIdx lines = some hIdx ∧
        (∀ w ∈ (rowState pf (headerChannels lines hIdx) lines hIdx).raw.map
          Prod.fst, (well_sort_key pint w).isSome = true) ∧
        ((rowState pf (headerChannels lines hIdx) lines hIdx).raw = [] ∨
          headerChannels lines hIdx ≠ [])) := by
  constructor
  · constructor
    · intro h
      by_contra hne
      obtain ⟨hIdx, hf⟩ := Option.ne_none_iff_exists'.mp hne
      simp only [parse_lc480_file, hf] at h
      split at h
      · simp at h
      · split at h
        · simp at h
        · simp at h
        · simp at h
    · intro h
      simp only [parse_lc480_file, h]
  · constructor
    · rintro ⟨d, hok⟩
      obtain ⟨hIdx, sortedWs, hf, hs, _, _, _, _, _, hnonempty, _⟩ :=
        parse_lc480_ok_shape pf pint mm lines d hok
      refine ⟨hIdx, hf, ?_, ?_⟩
      · exact (sortWells_isSome_iff pint _).mp (by rw [hs]; rfl)
      · by_cases hws : sortedWs = []
        · left
          have hlen := sortWells_length pint _ sortedWs hs
          rw [hws] at hlen
          have : ((rowState pf (headerChannels lines hIdx) lines
              hIdx).raw.map Prod.fst).length = 0 := hlen.symm
          rw [List.length_map] at this
          exact List.length_eq_zero.mp this
        · right
          exact hnonempty hws
    · rintro ⟨hIdx, hf, hkeys, hcond⟩
      have hsome : (sortWells pint ((rowState pf (headerChannels lines hIdx)
          lines hIdx).raw.map Prod.fst)).isSome = true :=
        (sortWells_isSome_iff pint _).mpr hkeys
      obtain ⟨sortedWs, hs⟩ := Option.isSome_iff_exists.mp hsome
      simp only [parse_lc480_file, hf, hs]
      cases hws : sortedWs with
      | nil => exact ⟨_, rfl⟩
      | cons w0 rest =>
        have hch : headerChannels lines hIdx ≠ [] := by
          rcases hcond with hraw | hch
          · exfalso
            rw [hraw] at hs
            rw [show (([] : List (String × List (String × List ℚ))).map
                Prod.fst) = [] from rfl] at hs
            rw [show sortWells pint [] = some [] from rfl] at hs
            injection hs with hs
            rw [← hs] at hws
            exact List.noConfusion hws
          · exact hch
        cases hchs : headerChannels lines hIdx with
        | nil => exact absurd hchs hch
        | cons ch0 chs => exact ⟨_, rfl⟩

/-- Witness for the amended C5: the empty input has no header and fails with
the missing-header error; the two-line input of the counterexample satisfies
the header condition but fails the channel condition. -/
theorem text_parser_failure_witness :
    parse_lc480_file pfDemo pintDemo mmDemo [] = .error .missingHeader :=
  (text_parser_failure_characterization pfDemo pintDemo mmDemo []).1.mpr
    (by decide)

/-! ## Claim C3: curve lengths vs `num_cycles` -/

/-- The ragged input for the C3 counterexample: well `A1` appears in one
data row, well `A2` in two. -/
def linesC3 : List String :=
  ["SamplePos\ta\tb\tc\td\te\tf\tCH1",
   "A1\ts1\tx\tx\tx\tx\tx\t5",
   "A2\ts2\tx\tx\tx\tx\tx\t4",
   "A2\ts2\tx\tx\tx\tx\tx\t9"]

/-- Counterexample to C3 as stated: the parsers never check that wells have
equally many data rows, so a ragged text export produces `num_cycles = 1`
(from the first well) while well `A2`'s curve has 2 entries. -/
theorem curve_length_counterexample :
    (parse_lc480_file pfDemo pintDemo mmDemo linesC3).toOption.map
        (fun d => (d.num_cycles, (flLookup d "A2" "CH1").map List.length))
      = some (1, some 2) ∧ (2 : Nat) ≠ 1 :=
  ⟨by decide, by decide⟩

/-- C3 (amended). `num_cycles` equals the length of the first listed well's
first channel curve, for both parsers, whenever wells and channels are
nonempty; curves of other wells (or XML channels without curve segments)
may have a different number of entries. -/
theorem num_cycles_first_curve :
    (∀ (pf : String → Option ℚ) (pint : String → Option Int)
        (mm : String → Option (String × String)) (lines : List String)
        (d : LC480Data), parse_lc480_file pf pint mm lines = .ok d →
        ∀ w0 rest ch0 chs, d.wells = w0 :: rest → d.channels = ch0 :: chs →
          d.num_cycles = ((flLookup d w0 ch0).getD []).length) ∧
    (∀ (pf : String → Option ℚ) (pint : String → Option Int) (root : XmlNode)
        (d : LC480Data), parse_lcpro_file pf pint root = .ok d →
        ∀ w0 rest ch0 chs, d.wells = w0 :: rest → d.channels = ch0 :: chs →
          d.num_cycles = ((flLookup d w0 ch0).getD []).length) := by
  constructor
  · intro pf pint mm lines d h w0 rest ch0 chs hw hc
    obtain ⟨hIdx, sortedWs, _, _, _, _, hchs, hwells, _, _, hnum⟩ :=
      parse_lc480_ok_shape pf pint mm lines d h
    rw [flLookup_getD]
    exact hnum w0 rest ch0 chs (hwells ▸ hw) (hchs ▸ hc)
  · intro pf pint root d h w0 rest ch0 chs hw hc
    obtain ⟨cm, raw, sortedWs, _, _, _, hchs, hwells, _, hnum⟩ :=
      parse_lcpro_ok_shape pf pint root d h
    rw [flLookup_getD]
    exact hnum w0 rest ch0 chs (hwells ▸ hw) (hchs ▸ hc)

/-- The dataset parsed from `linesC3` (checked concretely below). -/
def dataC3 : LC480Data :=
  { experiment_name := "", software_version := "", channels := ["CH1"],
    wells := ["A1", "A2"], sample_names := [("A1", "s1"), ("A2", "s2")],
    num_cycles := 1,
    fluorescence := [("A1", [("CH1", [5])]), ("A2", [("CH1", [4, 9])])],
    cycles := natCycles 1 }

/-- Witness for the amended C3 at the ragged input: `num_cycles` is the
length of `A1`'s curve. -/
theorem num_cycles_first_curve_witness :
    dataC3.num_cycles = ((flLookup dataC3 "A1" "CH1").getD []).length :=
  num_cycles_first_curve.1 pfDemo pintDemo mmDemo linesC3 dataC3
    (by decide) "A1" ["A2"] "CH1" [] rfl rfl

end LC480
